import Mathlib

/-!
Verification development for the daytrack local store and playback resolver.

The embedding follows the TypeScript source:
- data model from types.ts (DailySummary, ConversationSegment, DailyLog);
- the two keyed IndexedDB object stores and the operations of src/db.ts
  (saveAudio, getAudio, autoCleanupAndCompress, saveLog, getLog, getAllLogs,
  deleteDayData, wipeAllData, getStorageStats);
- the playback-position-to-segment resolver activeSegmentId of
  src/components/Timeline.tsx;
- the recording flow of src/App.tsx (recorder.onstop).

Numbers that are JS floats in the source (seconds, minutes, percentages) are
embedded as rationals; byte blobs as lists of naturals; keyed object stores as
association lists with IndexedDB put/get/delete semantics (put replaces the
record under the key, get returns the first record under the key, delete
removes every record under the key).
-/

set_option autoImplicit false

namespace DayTrack

/-- From types.ts: the structured daily digest. -/
structure DailySummary where
  overview : String
  keyEvents : List String
  actionItems : List String
  mood : String
  topics : List String
  deriving DecidableEq, Repr

/-- From types.ts: one transcribed utterance.  The optional `isCompressed?`
field of the source is embedded as a `Bool` because the source only ever tests
its JS truthiness (`!segment.isCompressed`, where `undefined` is falsy) and
assigns it `true`. -/
structure ConversationSegment where
  id : String
  startTime : String
  offsetInAudio : ℚ
  duration : ℚ
  speaker : String
  text : String
  confidence : ℚ
  audioId : Option String
  isCompressed : Bool
  deriving DecidableEq, Repr

/-- From types.ts: one record per calendar day, keyed by `date`. -/
structure DailyLog where
  date : String
  transcripts : List ConversationSegment
  summary : Option DailySummary
  recordingDurationMinutes : ℚ
  deriving DecidableEq, Repr

/-- From src/db.ts saveAudio: the value stored in the audio object store,
`{ blob, compressed, timestamp }`. -/
structure AudioRecord where
  blob : List Nat
  compressed : Bool
  timestamp : Nat
  deriving DecidableEq, Repr

/-- JS truthiness of a `string | null | undefined` value: `null`, `undefined`
and the empty string are falsy. -/
def jsTruthy : Option String → Bool
  | none => false
  | some s => !(s == "")

/-- Modelled from the spec: the browser gzip `CompressionStream` used by
compressBlob in src/db.ts.  The spec requires only that the transform is a
lossless compression with a decoder that can fail on data not in the
compressed encoding; the model prefixes the gzip magic bytes 31 139. -/
def compressBlob (b : List Nat) : List Nat := 31 :: 139 :: b

/-- Modelled from the spec: the browser gzip `DecompressionStream` used by
decompressBlob in src/db.ts; `none` models the stream throwing on input that
is not in the compressed encoding. -/
def decompressBlob : List Nat → Option (List Nat)
  | 31 :: 139 :: rest => some rest
  | _ => none

/-- The audio object store: keyed records, key is the id string. -/
abbrev AudioStore := List (String × AudioRecord)

/-- The logs object store: DailyLog records keyed by their `date` field. -/
abbrev LogStore := List DailyLog

/-- IndexedDB `put` on the audio store: replace the record under the key, or
add it when absent. -/
def putEntry : AudioStore → String → AudioRecord → AudioStore
  | [], id, r => [(id, r)]
  | p :: rest, id, r => if p.1 == id then (id, r) :: rest else p :: putEntry rest id r

/-- IndexedDB `get` on the audio store. -/
def lookupAudio (s : AudioStore) (id : String) : Option AudioRecord :=
  (s.find? (fun p => p.1 == id)).map Prod.snd

/-- IndexedDB `delete` on the audio store. -/
def deleteAudioEntry (s : AudioStore) (id : String) : AudioStore :=
  s.filter (fun p => !(p.1 == id))

/-- IndexedDB `put` on the logs store (keyPath `date`). -/
def putLogEntry : LogStore → DailyLog → LogStore
  | [], l => [l]
  | m :: rest, l => if m.date == l.date then l :: rest else m :: putLogEntry rest l

/-- IndexedDB `get` on the logs store. -/
def lookupLog (s : LogStore) (d : String) : Option DailyLog :=
  s.find? (fun m => m.date == d)

/-- IndexedDB `delete` on the logs store. -/
def deleteLogEntry (s : LogStore) (d : String) : LogStore :=
  s.filter (fun m => !(m.date == d))

/-- The whole persistent state: the two object stores of DayTrackDB. -/
structure DB where
  logs : LogStore
  audio : AudioStore
  deriving DecidableEq, Repr

/-- The empty database (fresh DayTrackDB). -/
def emptyDB : DB := ⟨[], []⟩

/-- src/db.ts saveAudio: optionally compress, then put
`{ blob, compressed, timestamp }` under the id.  The source defaults
`shouldCompress` to `false`; callers that omit it pass `false` here.  The
`Date.now()` timestamp is the explicit `now` argument. -/
def saveAudio (db : DB) (id : String) (blob : List Nat) (shouldCompress : Bool) (now : Nat) : DB :=
  let finalBlob := if shouldCompress then compressBlob blob else blob
  { db with audio := putEntry db.audio id ⟨finalBlob, shouldCompress, now⟩ }

/-- src/db.ts getAudio: absent key resolves `null`; a record tagged compressed
is decompressed, falling back to the raw stored blob when decompression
throws (the source also logs the anomaly via console.error, a side effect
outside the store model); an untagged record is returned as stored. -/
def getAudio (db : DB) (id : String) : Option (List Nat) :=
  match lookupAudio db.audio id with
  | none => none
  | some r =>
    if r.compressed then
      match decompressBlob r.blob with
      | some d => some d
      | none => some r.blob
    else some r.blob

/-- src/db.ts saveLog: put the full record, keyed by its date. -/
def saveLog (db : DB) (log : DailyLog) : DB :=
  { db with logs := putLogEntry db.logs log }

/-- src/db.ts getLog. -/
def getLog (db : DB) (date : String) : Option DailyLog :=
  lookupLog db.logs date

/-- src/db.ts getAllLogs: `store.getAll()`. -/
def getAllLogs (db : DB) : List DailyLog := db.logs

/-- src/db.ts deleteDayData: within one transaction, delete the log record for
the date and every audio record listed in audioIds. -/
def deleteDayData (db : DB) (date : String) (audioIds : List String) : DB :=
  { logs := deleteLogEntry db.logs date,
    audio := audioIds.foldl deleteAudioEntry db.audio }

/-- src/db.ts deleteDayData runs the log delete and all audio deletes as
requests of one IndexedDB transaction over both object stores
(`db.transaction([STORE_LOGS, STORE_AUDIO], 'readwrite')`), queued in the same
synchronous task.  An IndexedDB transaction commits all of its requests or
aborts with no effect, so an interruption is modelled by the transaction not
committing: `committed = true` applies every delete, `committed = false`
leaves the store untouched.  No intermediate state exists. -/
def deleteDayDataTxn (db : DB) (date : String) (audioIds : List String) (committed : Bool) : DB :=
  if committed then deleteDayData db date audioIds else db

/-- src/db.ts wipeAllData: clear both stores. -/
def wipeAllData (_db : DB) : DB := ⟨[], []⟩

/-- src/components/Timeline.tsx activeSegmentId: given the playing audio id
state (null when nothing plays), the displayed log (null when absent) and the
playback clock, return the id of the first transcript whose audio id equals
the playing id and whose window `[offsetInAudio, offsetInAudio + duration +
0.3]` contains the clock.  The source guard `if (!playingAudioId || !log)
return null` tests JS truthiness, so an empty-string playing id is treated
like null. -/
def activeSegmentId (playingAudioId : Option String) (log : Option DailyLog) (currentTime : ℚ) : Option String :=
  match playingAudioId, log with
  | some pid, some l =>
    if pid = "" then none
    else
      (l.transcripts.find? (fun s =>
        (some pid == s.audioId)
          && decide (s.offsetInAudio ≤ currentTime)
          && decide (currentTime ≤ s.offsetInAudio + s.duration + 3/10))).map
        (fun s => s.id)
  | _, _ => none

/-- The resolver predicate of the spec: a segment is active for playing id
`pid` at clock `t` iff it carries that audio id and its tolerance-extended
window contains `t`. -/
def SegActive (pid : String) (t : ℚ) (s : ConversationSegment) : Prop :=
  s.audioId = some pid ∧ s.offsetInAudio ≤ t ∧ t ≤ s.offsetInAudio + s.duration + 3/10

instance (pid : String) (t : ℚ) (s : ConversationSegment) : Decidable (SegActive pid t s) := by
  unfold SegActive; infer_instance

/-- The sweep condition of src/db.ts autoCleanupAndCompress on one segment:
`segment.audioId && !segment.isCompressed` (JS truthiness on the id). -/
def segQualifies (s : ConversationSegment) : Bool :=
  jsTruthy s.audioId && !s.isCompressed

/-- The inner segment loop of autoCleanupAndCompress over one eligible log:
marks each qualifying segment `isCompressed := true` and reports whether any
was marked (the `logUpdated` flag of the source).  For each qualifying
segment the source also issues an `audioStore.get` whose onsuccess handler
runs `await compressBlob(result.blob)` and only then issues the conditional
`audioStore.put` (db.ts:94-100); the await crosses tasks, the single
transaction opened before the loop has auto-committed by the time it
resumes, and the put throws TransactionInactiveError - the same IndexedDB
transaction-lifetime semantics as in `deleteDayDataTxn`.  The nested audio
writes therefore never land and the loop has no effect on the audio store;
only the synchronous segment marks are returned. -/
def sweepSegments : List ConversationSegment → List ConversationSegment × Bool
  | [] => ([], false)
  | s :: rest =>
    if segQualifies s then
      let res := sweepSegments rest
      ({ s with isCompressed := true } :: res.1, true)
    else
      let res := sweepSegments rest
      (s :: res.1, res.2)

/-- The per-log step of autoCleanupAndCompress: a log is processed only when
its date is strictly older than the 30-day horizon (`logDate < thirtyDaysAgo`
in the source; `dateVal` embeds the browser `new Date(string)` parse as a
number and `cutoff` the value of `thirtyDaysAgo`), and the updated log is
written back only when some segment was marked.  The mark assignments and
the `logStore.put(log)` are issued synchronously in the task that created
the transaction, so they land; the nested audio puts do not (see
`sweepSegments`), so the audio store is untouched. -/
def sweepLog (dateVal : String → Int) (cutoff : Int) (db : DB) (log : DailyLog) : DB :=
  if dateVal log.date < cutoff then
    let res := sweepSegments log.transcripts
    if res.2 then
      { db with logs := putLogEntry db.logs { log with transcripts := res.1 } }
    else db
  else db

/-- src/db.ts autoCleanupAndCompress: read the snapshot of all logs, then
process each snapshot entry in order against the evolving store.  Per the
transaction-lifetime semantics above, one run marks the qualifying segments
of every log strictly older than the horizon and rewrites those logs, while
the audio records are never modified: the compress write-backs are lost. -/
def autoCleanupAndCompress (dateVal : String → Int) (cutoff : Int) (db : DB) : DB :=
  (getAllLogs db).foldl (sweepLog dateVal cutoff) db

/-- src/App.tsx recorder.onstop: persist the recorded blob uncompressed under
a fresh audio id (`saveAudio(audioId, audioBlob)`, compress flag omitted so
`false`), attach that audio id to every transcribed segment, then append the
tagged segments to the existing log of the day, or create the log when the
day has none, and save it (full-record put keyed by date). -/
def recorderOnStop (db : DB) (audioId : String) (blob : List Nat) (now : Nat)
    (today : String) (newSegments : List ConversationSegment) (recordingSeconds : ℚ) : DB :=
  let db1 := saveAudio db audioId blob false now
  let segmentsWithAudio := newSegments.map (fun s => { s with audioId := some audioId })
  let updatedLog : DailyLog :=
    match getLog db1 today with
    | some existing =>
      { existing with
        transcripts := existing.transcripts ++ segmentsWithAudio,
        recordingDurationMinutes := existing.recordingDurationMinutes + recordingSeconds / 60 }
    | none =>
      { date := today, transcripts := segmentsWithAudio, summary := none,
        recordingDurationMinutes := recordingSeconds / 60 }
  saveLog db1 updatedLog

/-- The result shape of src/db.ts getStorageStats. -/
structure StorageStats where
  usageMB : Int
  quotaMB : Int
  percentUsed : ℚ
  deriving DecidableEq, Repr

/-- A `navigator.storage.estimate()` result; `none` fields model `undefined`
members (the source defaults them to 0 via `|| 0`). -/
structure StorageEstimate where
  usage : Option ℚ
  quota : Option ℚ
  deriving DecidableEq, Repr

/-- JS `Math.round`: round half toward positive infinity. -/
def jsRound (q : ℚ) : Int := Int.floor (q + 1/2)

/-- src/db.ts getStorageStats: a pure read of the quota introspection
collaborator; `none` models `navigator.storage`/`estimate` being unavailable,
in which case all-zero stats are returned.  `percentUsed` is
`usage / quota * 100` when the quota is positive and `0` otherwise. -/
def getStorageStats (estimate : Option StorageEstimate) : StorageStats :=
  match estimate with
  | none => { usageMB := 0, quotaMB := 0, percentUsed := 0 }
  | some e =>
    let usage := e.usage.getD 0
    let quota := e.quota.getD 0
    { usageMB := jsRound (usage / (1024 * 1024)),
      quotaMB := jsRound (quota / (1024 * 1024)),
      percentUsed := if 0 < quota then usage / quota * 100 else 0 }

/-- The store-mutating entry points the application layer (src/App.tsx) can
invoke, each embedded by the corresponding function above: a finished
recording session, a log rewrite (summarize writes the log with a summary
attached), a day delete, a full wipe, and the startup compaction sweep. -/
inductive AppOp where
  | record (audioId : String) (blob : List Nat) (now : Nat) (today : String)
      (segments : List ConversationSegment) (recordingSeconds : ℚ)
  | putLogOp (log : DailyLog)
  | deleteDay (date : String) (audioIds : List String)
  | wipe
  | sweep (dateVal : String → Int) (cutoff : Int)

/-- Whether an application operation is the compaction sweep. -/
def AppOp.isSweep : AppOp → Bool
  | .sweep _ _ => true
  | _ => false

/-- Apply one application operation to the store. -/
def applyOp (db : DB) : AppOp → DB
  | .record aid blob now today segs secs => recorderOnStop db aid blob now today segs secs
  | .putLogOp l => saveLog db l
  | .deleteDay d ids => deleteDayData db d ids
  | .wipe => wipeAllData db
  | .sweep dv c => autoCleanupAndCompress dv c db

/-- The store state reached by running a sequence of application operations
from a fresh database. -/
def runOps (ops : List AppOp) : DB :=
  ops.foldl applyOp emptyDB

/-- The marking the sweep applies to one segment: a qualifying segment is
marked compression-accounted-for, any other is untouched. -/
def markSeg (s : ConversationSegment) : ConversationSegment :=
  if segQualifies s then { s with isCompressed := true } else s

/-- The marking the sweep applies to a processed log. -/
def markLog (l : DailyLog) : DailyLog :=
  { l with transcripts := l.transcripts.map markSeg }

/-- A log the sweep leaves alone together with the whole store: it is at or
inside the horizon, or none of its segments qualifies for compaction. -/
def InertLog (dateVal : String → Int) (cutoff : Int) (L : DailyLog) : Prop :=
  ¬ dateVal L.date < cutoff ∨ ∀ s ∈ L.transcripts, segQualifies s = false

/-- A concrete stand-in for the browser date parse used in witnesses: the
length of the date string as a number. -/
def dateNum (s : String) : Int := (s.length : Int)

/-- Two example segments of the spec: ids "a" and "b" for audio "x", windows
`[0, 10]` and `[10, 15]`. -/
def segA : ConversationSegment :=
  { id := "a", startTime := "09:00:00", offsetInAudio := 0, duration := 10,
    speaker := "You", text := "", confidence := 1, audioId := some "x", isCompressed := false }

/-- Second example segment. -/
def segB : ConversationSegment :=
  { id := "b", startTime := "09:00:10", offsetInAudio := 10, duration := 5,
    speaker := "You", text := "", confidence := 1, audioId := some "x", isCompressed := false }

/-- The example log holding the two segments. -/
def logX : DailyLog :=
  { date := "2024-05-01", transcripts := [segA, segB], summary := none,
    recordingDurationMinutes := 0 }

/-- A concrete segment referencing audio "a1". -/
def segDel : ConversationSegment :=
  { id := "s1", startTime := "09:00:00", offsetInAudio := 0, duration := 5,
    speaker := "You", text := "hello", confidence := 1, audioId := some "a1",
    isCompressed := false }

/-- A concrete log for 2024-05-01 holding `segDel`. -/
def logDel : DailyLog :=
  { date := "2024-05-01", transcripts := [segDel], summary := none,
    recordingDurationMinutes := 1 }

/-- A concrete one-day store: the log of 2024-05-01 references audio "a1". -/
def dbDel : DB := ⟨[logDel], [("a1", ⟨[1, 2], false, 7⟩)]⟩

/-- A concrete store for the idempotence witness: the old log of `dbDel`
together with one uncompressed record it references and one record already
stored compressed. -/
def dbC6 : DB :=
  ⟨[logDel], [("a1", ⟨[1, 2], false, 7⟩), ("c1", ⟨compressBlob [3], true, 2⟩)]⟩

/-- Every record of an audio store is stored uncompressed. -/
def AudioAllUncompressed (a : AudioStore) : Prop :=
  ∀ p ∈ a, p.2.compressed = false

/-! ## Resolver lemmas -/

/-- The Bool predicate tested by the resolver find agrees with `SegActive`. -/
theorem segPred_iff (pid : String) (t : ℚ) (s : ConversationSegment) :
    ((some pid == s.audioId) && decide (s.offsetInAudio ≤ t)
      && decide (t ≤ s.offsetInAudio + s.duration + 3/10)) = true ↔ SegActive pid t s := by
  rw [Bool.and_eq_true, Bool.and_eq_true]
  simp only [beq_iff_eq, decide_eq_true_eq, SegActive]
  constructor
  · rintro ⟨⟨h1, h2⟩, h3⟩
    exact ⟨h1.symm, h2, h3⟩
  · rintro ⟨h1, h2, h3⟩
    exact ⟨⟨h1.symm, h2⟩, h3⟩

/-- A find over a list returns an element exactly when the list splits at a
first satisfying element. -/
theorem find?_eq_some_split {α : Type} (p : α → Bool) (a : α) :
    ∀ l : List α, l.find? p = some a ↔
      ∃ l1 l2, l = l1 ++ a :: l2 ∧ p a = true ∧ ∀ x ∈ l1, p x = false
  | [] => by simp
  | b :: l => by
    cases hb : p b with
    | false =>
      rw [List.find?_cons_of_neg _ (by simp [hb])]
      rw [find?_eq_some_split p a l]
      constructor
      · rintro ⟨l1, l2, rfl, hpa, hall⟩
        refine ⟨b :: l1, l2, rfl, hpa, ?_⟩
        intro x hx
        rcases List.mem_cons.mp hx with rfl | hx2
        · exact hb
        · exact hall x hx2
      · rintro ⟨l1, l2, heq, hpa, hall⟩
        cases l1 with
        | nil =>
          simp only [List.nil_append, List.cons.injEq] at heq
          exact absurd (heq.1 ▸ hpa) (by simp [hb])
        | cons c l1 =>
          simp only [List.cons_append, List.cons.injEq] at heq
          obtain ⟨rfl, rfl⟩ := heq
          exact ⟨l1, l2, rfl, hpa, fun x hx => hall x (List.mem_cons_of_mem _ hx)⟩
    | true =>
      rw [List.find?_cons_of_pos _ hb]
      constructor
      · intro h
        injection h with h
        subst h
        exact ⟨[], l, rfl, hb, by simp⟩
      · rintro ⟨l1, l2, heq, hpa, hall⟩
        cases l1 with
        | nil =>
          simp only [List.nil_append, List.cons.injEq] at heq
          simp [heq.1]
        | cons c l1 =>
          simp only [List.cons_append, List.cons.injEq] at heq
          obtain ⟨rfl, _⟩ := heq
          exact absurd hb (by simp [hall b (List.mem_cons_self _ _)])

/-- Claim C1: the resolver returns `none` when no audio is playing (a null or
empty playing id, JS-falsy) or the log is absent; otherwise it returns the id
of the first segment in list order whose audio id equals the playing id and
whose tolerance-extended window `[offsetInAudio, offsetInAudio + duration +
0.3]` contains the clock, and `none` when no segment satisfies the
predicate. -/
theorem activeSegmentId_characterization :
    (∀ log t, activeSegmentId none log t = none)
    ∧ (∀ pid t, activeSegmentId pid none t = none)
    ∧ (∀ l t, activeSegmentId (some "") (some l) t = none)
    ∧ (∀ pid l t, pid ≠ "" →
        (activeSegmentId (some pid) (some l) t = none ↔
          ∀ s ∈ l.transcripts, ¬ SegActive pid t s))
    ∧ (∀ pid l t sid, pid ≠ "" →
        (activeSegmentId (some pid) (some l) t = some sid ↔
          ∃ pre s post, l.transcripts = pre ++ s :: post
            ∧ (∀ u ∈ pre, ¬ SegActive pid t u) ∧ SegActive pid t s ∧ s.id = sid)) := by
  refine ⟨fun log t => rfl, fun pid t => by cases pid <;> rfl, fun l t => by simp [activeSegmentId], ?_, ?_⟩
  · intro pid l t hpid
    simp only [activeSegmentId, if_neg hpid, Option.map_eq_none', List.find?_eq_none]
    constructor
    · intro h s hs hact
      exact h s hs ((segPred_iff pid t s).mpr hact)
    · intro h s hs hp
      exact h s hs ((segPred_iff pid t s).mp hp)
  · intro pid l t sid hpid
    simp only [activeSegmentId, if_neg hpid, Option.map_eq_some']
    constructor
    · rintro ⟨s, hfind, rfl⟩
      obtain ⟨l1, l2, heq, hpa, hall⟩ := (find?_eq_some_split _ s l.transcripts).mp hfind
      refine ⟨l1, s, l2, heq, ?_, (segPred_iff pid t s).mp hpa, rfl⟩
      intro u hu hact
      have hp := (segPred_iff pid t u).mpr hact
      rw [hall u hu] at hp
      cases hp
    · rintro ⟨pre, s, post, heq, hpre, hact, rfl⟩
      refine ⟨s, (find?_eq_some_split _ s l.transcripts).mpr
        ⟨pre, post, heq, (segPred_iff pid t s).mpr hact, ?_⟩, rfl⟩
      intro u hu
      exact Bool.eq_false_iff.mpr (fun hp => hpre u hu ((segPred_iff pid t u).mp hp))


/-- Witness for C1 at a concrete input: playing id "z" matches no segment of
the example log, so the resolver yields no active segment. -/
theorem activeSegmentId_characterization_witness :
    activeSegmentId (some "z") (some logX) 0 = none :=
  (activeSegmentId_characterization.2.2.2.1 "z" logX 0 (by decide)).mpr (by
    simp [logX, segA, segB, SegActive])

/-- Claim C2 counterexample: at clock 10.2 with playing id "x" the resolver
returns segment "a", not "b" as claimed: the tolerance extends the window of
"a" to `[0, 10.3]`, which still contains 10.2, and "a" precedes "b" in list
order, so the first-match rule picks "a". -/
theorem resolver_clock_10_2_counterexample :
    activeSegmentId (some "x") (some logX) (102/10) = some "a"
    ∧ ¬ activeSegmentId (some "x") (some logX) (102/10) = some "b" := by
  constructor
  · simp only [activeSegmentId, logX, segA, segB]
    rw [if_neg (by decide)]
    norm_num [List.find?]
  · simp only [activeSegmentId, logX, segA, segB]
    rw [if_neg (by decide)]
    norm_num [List.find?]
    decide

/-- Claim C2 (amended): for the example segment list with playing id "x" the
resolver yields active "a" at clock 9.9, active "a" (not "b") at clock 10.2
because the tolerance window of "a" still contains 10.2 and "a" is first in
list order, and no active segment at clock 20.0; with any other playing id,
or none, it yields no active segment for every clock value. -/
theorem resolver_example_behaviour :
    activeSegmentId (some "x") (some logX) (99/10) = some "a"
    ∧ activeSegmentId (some "x") (some logX) (102/10) = some "a"
    ∧ activeSegmentId (some "x") (some logX) 20 = none
    ∧ (∀ pid : String, pid ≠ "x" → ∀ t : ℚ, activeSegmentId (some pid) (some logX) t = none)
    ∧ (∀ t : ℚ, activeSegmentId none (some logX) t = none) := by
  refine ⟨?_, ?_, ?_, ?_, fun t => rfl⟩
  · simp only [activeSegmentId, logX, segA, segB]
    rw [if_neg (by decide)]
    norm_num [List.find?]
  · simp only [activeSegmentId, logX, segA, segB]
    rw [if_neg (by decide)]
    norm_num [List.find?]
  · simp only [activeSegmentId, logX, segA, segB]
    rw [if_neg (by decide)]
    norm_num [List.find?]
  · intro pid hpid t
    by_cases h0 : pid = ""
    · simp [activeSegmentId, h0]
    · have hx : (pid == "x") = false := beq_eq_false_iff_ne.mpr hpid
      simp [activeSegmentId, h0, logX, segA, segB, List.find?, hx]

/-- Witness for C2 (amended) at a concrete input: playing id "y" yields no
active segment at clock 9.9. -/
theorem resolver_example_behaviour_witness :
    activeSegmentId (some "y") (some logX) (99/10) = none :=
  resolver_example_behaviour.2.2.2.1 "y" (by decide) (99/10)

/-! ## Keyed-store lemmas -/

/-- Unfolding one entry of an audio-store read. -/
theorem lookupAudio_cons (p : String × AudioRecord) (rest : AudioStore) (x : String) :
    lookupAudio (p :: rest) x = if p.1 = x then some p.2 else lookupAudio rest x := by
  by_cases h : p.1 = x
  · simp only [lookupAudio, List.find?, show (p.1 == x) = true from beq_iff_eq.mpr h,
      if_pos h, Option.map_some']
  · simp only [lookupAudio, List.find?, show (p.1 == x) = false from beq_eq_false_iff_ne.mpr h,
      if_neg h]

/-- Reading a key after a put: the put record under the put key, the previous
content elsewhere. -/
theorem lookupAudio_putEntry (a : AudioStore) (id : String) (r : AudioRecord) (x : String) :
    lookupAudio (putEntry a id r) x = if x = id then some r else lookupAudio a x := by
  induction a with
  | nil =>
    by_cases hx : x = id
    · simp [putEntry, lookupAudio_cons, hx]
    · simp [putEntry, lookupAudio_cons, hx, Ne.symm hx, lookupAudio]
  | cons p rest ih =>
    simp only [putEntry]
    by_cases hp : p.1 = id
    · rw [if_pos (beq_iff_eq.mpr hp)]
      by_cases hx : x = id
      · simp [lookupAudio_cons, hx]
      · have hpx : ¬ p.1 = x := fun h => hx (h.symm.trans hp)
        simp [lookupAudio_cons, hx, Ne.symm hx, hpx]
    · rw [if_neg (by simp [hp])]
      by_cases hx : x = p.1
      · have hxid : ¬ x = id := fun h => hp (hx.symm.trans h)
        simp [lookupAudio_cons, hx.symm, hxid]
      · have hpx : ¬ p.1 = x := Ne.symm hx
        simp only [lookupAudio_cons, if_neg hpx, ih]

/-- Reading a key after a keyed delete. -/
theorem lookupAudio_deleteAudioEntry (a : AudioStore) (i x : String) :
    lookupAudio (deleteAudioEntry a i) x = if x = i then none else lookupAudio a x := by
  induction a with
  | nil => simp [deleteAudioEntry, lookupAudio, List.find?]
  | cons p rest ih =>
    simp only [deleteAudioEntry, List.filter_cons] at *
    by_cases hp : p.1 = i
    · rw [if_neg (by simp [hp])]
      by_cases hx : x = i
      · subst hx
        simp [ih]
      · have hpx : ¬ p.1 = x := fun h => hx (h.symm.trans hp)
        simp [ih, hx, lookupAudio_cons, hpx]
    · rw [if_pos (by simp [hp])]
      by_cases hx : x = p.1
      · have hxi : ¬ x = i := fun h => hp (hx.symm.trans h)
        simp [lookupAudio_cons, hx.symm, hxi]
      · simp [lookupAudio_cons, Ne.symm hx, ih]

/-- Reading a key after the audio deletes of a day delete. -/
theorem lookupAudio_foldl_delete (ids : List String) (a : AudioStore) (x : String) :
    lookupAudio (ids.foldl deleteAudioEntry a) x = if x ∈ ids then none else lookupAudio a x := by
  induction ids generalizing a with
  | nil => simp
  | cons i ids ih =>
    simp only [List.foldl_cons, ih, lookupAudio_deleteAudioEntry]
    by_cases hx : x = i
    · simp [hx]
    · by_cases hm : x ∈ ids <;> simp [hx, hm]

/-- Unfolding one entry of a logs-store read. -/
theorem lookupLog_cons (m : DailyLog) (rest : LogStore) (x : String) :
    lookupLog (m :: rest) x = if m.date = x then some m else lookupLog rest x := by
  by_cases h : m.date = x
  · simp only [lookupLog, List.find?, show (m.date == x) = true from beq_iff_eq.mpr h, if_pos h]
  · simp only [lookupLog, List.find?, show (m.date == x) = false from beq_eq_false_iff_ne.mpr h,
      if_neg h]

/-- Reading a date after a log put. -/
theorem lookupLog_putLogEntry (s : LogStore) (l : DailyLog) (d : String) :
    lookupLog (putLogEntry s l) d = if d = l.date then some l else lookupLog s d := by
  induction s with
  | nil =>
    by_cases hd : d = l.date
    · simp [putLogEntry, lookupLog_cons, hd]
    · simp [putLogEntry, lookupLog_cons, hd, Ne.symm hd, lookupLog]
  | cons m rest ih =>
    simp only [putLogEntry]
    by_cases hm : m.date = l.date
    · rw [if_pos (beq_iff_eq.mpr hm)]
      by_cases hd : d = l.date
      · simp [lookupLog_cons, hd]
      · have hmd : ¬ m.date = d := fun h => hd (h.symm.trans hm)
        simp [lookupLog_cons, hd, Ne.symm hd, hmd]
    · rw [if_neg (by simp [hm])]
      by_cases hd : d = m.date
      · have hdl : ¬ d = l.date := fun h => hm (hd.symm.trans h)
        simp [lookupLog_cons, hd.symm, hdl]
      · have hmd : ¬ m.date = d := Ne.symm hd
        simp only [lookupLog_cons, if_neg hmd, ih]

/-- Reading a date after a log delete. -/
theorem lookupLog_deleteLogEntry (s : LogStore) (d x : String) :
    lookupLog (deleteLogEntry s d) x = if x = d then none else lookupLog s x := by
  induction s with
  | nil => simp [deleteLogEntry, lookupLog, List.find?]
  | cons m rest ih =>
    simp only [deleteLogEntry, List.filter_cons] at *
    by_cases hm : m.date = d
    · rw [if_neg (by simp [hm])]
      by_cases hx : x = d
      · subst hx
        simp [ih]
      · have hmx : ¬ m.date = x := fun h => hx (h.symm.trans hm)
        simp [ih, hx, lookupLog_cons, hmx]
    · rw [if_pos (by simp [hm])]
      by_cases hx : x = m.date
      · have hxd : ¬ x = d := fun h => hm (hx.symm.trans h)
        simp [lookupLog_cons, hx.symm, hxd]
      · simp [lookupLog_cons, Ne.symm hx, ih]

/-! ## BlobStore round trip, frame conditions and fallback -/

/-- Claim C5: a get of an id right after a put of that id returns exactly the
put bytes, for either value of the compress flag (decompressed when stored
compressed); the compression transform satisfies the round-trip law; and the
result persists across operations that are not a put or delete on that id
(a put under another id, a log write, a day delete not listing the id). -/
theorem getAudio_after_saveAudio (db : DB) (id : String) (b : List Nat) (c : Bool) (now : Nat) :
    getAudio (saveAudio db id b c now) id = some b
    ∧ decompressBlob (compressBlob b) = some b
    ∧ (∀ (db2 : DB) (id2 : String) (b2 : List Nat) (c2 : Bool) (n2 : Nat), id2 ≠ id →
        getAudio (saveAudio db2 id2 b2 c2 n2) id = getAudio db2 id)
    ∧ (∀ (db2 : DB) (date : String) (ids : List String), id ∉ ids →
        getAudio (deleteDayData db2 date ids) id = getAudio db2 id)
    ∧ (∀ (db2 : DB) (log : DailyLog), getAudio (saveLog db2 log) id = getAudio db2 id) := by
  refine ⟨?_, rfl, ?_, ?_, fun db2 log => rfl⟩
  · cases c with
    | false => simp [getAudio, saveAudio, lookupAudio_putEntry]
    | true => simp [getAudio, saveAudio, lookupAudio_putEntry, decompressBlob, compressBlob]
  · intro db2 id2 b2 c2 n2 hne
    simp [getAudio, saveAudio, lookupAudio_putEntry, Ne.symm hne]
  · intro db2 date ids hnm
    simp [getAudio, deleteDayData, lookupAudio_foldl_delete, hnm]

/-- Witness for C5 at concrete inputs: a compressed put of `[1, 2, 3]` under
"id1" reads back as `[1, 2, 3]`, and an unrelated put under "id2" leaves that
read unchanged. -/
theorem getAudio_after_saveAudio_witness :
    getAudio (saveAudio emptyDB "id1" [1, 2, 3] true 5) "id1" = some [1, 2, 3]
    ∧ getAudio (saveAudio (saveAudio emptyDB "id1" [1, 2, 3] true 5) "id2" [9] false 6) "id1"
        = getAudio (saveAudio emptyDB "id1" [1, 2, 3] true 5) "id1" :=
  ⟨(getAudio_after_saveAudio emptyDB "id1" [1, 2, 3] true 5).1,
   (getAudio_after_saveAudio emptyDB "id1" [1, 2, 3] true 5).2.2.1
     (saveAudio emptyDB "id1" [1, 2, 3] true 5) "id2" [9] false 6 (by decide)⟩

/-- Claim C7: a stored record tagged compressed whose bytes fail decompression
is read back as its raw stored bytes (the source then signals the anomaly via
console.error rather than failing the read), and a get of an absent id
returns `none` rather than an error. -/
theorem getAudio_fallback (db : DB) (id : String) :
    (∀ r, lookupAudio db.audio id = some r → r.compressed = true →
      decompressBlob r.blob = none → getAudio db id = some r.blob)
    ∧ (lookupAudio db.audio id = none → getAudio db id = none) := by
  constructor
  · intro r hr hc hd
    simp [getAudio, hr, hc, hd]
  · intro h
    simp [getAudio, h]

/-- Witness for C7 at a concrete input: the record under "bad" is tagged
compressed but holds bytes `[9, 9]` that are not in the compressed encoding;
the read falls back to `[9, 9]`, and a read of the absent id "nope" yields
`none`. -/
theorem getAudio_fallback_witness :
    getAudio ⟨[], [("bad", ⟨[9, 9], true, 0⟩)]⟩ "bad" = some [9, 9]
    ∧ getAudio ⟨[], [("bad", ⟨[9, 9], true, 0⟩)]⟩ "nope" = none :=
  ⟨(getAudio_fallback ⟨[], [("bad", ⟨[9, 9], true, 0⟩)]⟩ "bad").1
      ⟨[9, 9], true, 0⟩ rfl rfl rfl,
   (getAudio_fallback ⟨[], [("bad", ⟨[9, 9], true, 0⟩)]⟩ "nope").2 rfl⟩

/-! ## Storage stats -/

/-- Claim C9: the storage report is a pure function of the estimate (the
embedding is a function; the source performs no writes, only the
`navigator.storage.estimate()` read) with `percentUsed` equal to
`usage / quota * 100` when the quota is positive and `0` otherwise; in
particular 512MB used of a 5120MB quota reports 10 percent. -/
theorem getStorageStats_spec :
    (∀ e : StorageEstimate,
      (getStorageStats (some e)).percentUsed =
        if 0 < e.quota.getD 0 then e.usage.getD 0 / e.quota.getD 0 * 100 else 0)
    ∧ (getStorageStats none).percentUsed = 0
    ∧ (getStorageStats (some ⟨some (512 * 1024 * 1024), some (5120 * 1024 * 1024)⟩)).percentUsed
        = 10 := by
  refine ⟨fun e => rfl, rfl, ?_⟩
  show (if (0:ℚ) < ((5120 * 1024 * 1024 : ℚ))
    then (512 * 1024 * 1024 : ℚ) / (5120 * 1024 * 1024) * 100 else 0) = 10
  norm_num

/-! ## Day delete atomicity -/

/-- Claim C4 (amended): the day delete runs the log delete and the audio
deletes as one transaction, so every interruption outcome is all-or-nothing:
either the store is unchanged, or the log of the date is gone and every
listed audio record is gone.  No outcome leaves orphaned audio of a deleted
log or a log whose listed audio was deleted. -/
theorem deleteDayDataTxn_atomic (db : DB) (date : String) (ids : List String) (committed : Bool) :
    deleteDayDataTxn db date ids committed = db
    ∨ (getLog (deleteDayDataTxn db date ids committed) date = none
       ∧ ∀ id ∈ ids, lookupAudio (deleteDayDataTxn db date ids committed).audio id = none) := by
  cases committed with
  | false => exact Or.inl rfl
  | true =>
    refine Or.inr ⟨?_, ?_⟩
    · simp [deleteDayDataTxn, deleteDayData, getLog, lookupLog_deleteLogEntry]
    · intro id hid
      simp [deleteDayDataTxn, deleteDayData, lookupAudio_foldl_delete, hid]


/-- Claim C4 counterexample: on the concrete store `dbDel`, both possible
interruption outcomes of the day delete (transaction aborted, transaction
committed) leave no partial state: the aborted outcome is the unchanged
store, and the committed outcome has neither the log nor the audio record.
The claimed intermediate state, a deleted log with surviving audio or the
converse, is not reachable. -/
theorem deleteDay_no_partial_state :
    deleteDayDataTxn dbDel "2024-05-01" ["a1"] false = dbDel
    ∧ getLog (deleteDayDataTxn dbDel "2024-05-01" ["a1"] true) "2024-05-01" = none
    ∧ lookupAudio (deleteDayDataTxn dbDel "2024-05-01" ["a1"] true).audio "a1" = none :=
  ⟨rfl, rfl, rfl⟩

/-- Witness for C4 (amended) at a concrete input: the committed outcome on
`dbDel`. -/
theorem deleteDayDataTxn_atomic_witness :
    deleteDayDataTxn dbDel "2024-05-01" ["a1"] true = dbDel
    ∨ (getLog (deleteDayDataTxn dbDel "2024-05-01" ["a1"] true) "2024-05-01" = none
       ∧ ∀ id ∈ ["a1"],
          lookupAudio (deleteDayDataTxn dbDel "2024-05-01" ["a1"] true).audio id = none) :=
  deleteDayDataTxn_atomic dbDel "2024-05-01" ["a1"] true

/-! ## Recording flow appends -/

/-- A stored log is keyed by its own date: a successful read under a date
returns a record carrying that date. -/
theorem lookupLog_date (s : LogStore) (d : String) (m : DailyLog)
    (h : lookupLog s d = some m) : m.date = d := by
  have h2 : List.find? (fun x => x.date == d) s = some m := h
  exact beq_iff_eq.mp (@List.find?_some DailyLog (fun x => x.date == d) m s h2)

/-- Reading the day right after a recording session: the read returns the
existing log with the tagged segments appended (and the session minutes
added), or the freshly created log when the day had none. -/
theorem getLog_recorderOnStop (db : DB) (aid : String) (blob : List Nat) (now : Nat)
    (today : String) (segs : List ConversationSegment) (secs : ℚ) :
    getLog (recorderOnStop db aid blob now today segs secs) today =
      some (match getLog db today with
            | some existing =>
              { existing with
                transcripts :=
                  existing.transcripts ++ segs.map (fun s => { s with audioId := some aid }),
                recordingDurationMinutes := existing.recordingDurationMinutes + secs / 60 }
            | none =>
              { date := today, transcripts := segs.map (fun s => { s with audioId := some aid }),
                summary := none, recordingDurationMinutes := secs / 60 }) := by
  have hsa : getLog (saveAudio db aid blob false now) today = getLog db today := rfl
  rw [recorderOnStop]
  cases h : getLog db today with
  | none =>
    rw [getLog, saveLog, lookupLog_putLogEntry]
    simp only [hsa, h]
    simp
  | some existing =>
    rw [getLog, saveLog, lookupLog_putLogEntry]
    simp only [hsa, h]
    rw [if_pos (lookupLog_date db.logs today existing h).symm]

/-- Claim C8: a day with no log yet, recorded once (creating the log) and then
recorded again with two transcribed segments, reads back a log whose
transcript list is exactly those two segments, tagged with the audio id of
the second session, in insertion order; and a log put is a full-record
replace keyed by date (a get of the date right after the put returns the put
record). -/
theorem recorder_append_two_segments (db : DB) (today : String)
    (a1 a2 : String) (b1 b2 : List Nat) (n1 n2 : Nat) (r1 r2 : ℚ)
    (s1 s2 : ConversationSegment)
    (h : getLog db today = none) :
    (∃ l, getLog (recorderOnStop (recorderOnStop db a1 b1 n1 today [] r1)
          a2 b2 n2 today [s1, s2] r2) today = some l
      ∧ l.transcripts = [{ s1 with audioId := some a2 }, { s2 with audioId := some a2 }])
    ∧ ∀ (db2 : DB) (lg : DailyLog), getLog (saveLog db2 lg) lg.date = some lg := by
  constructor
  · rw [getLog_recorderOnStop, getLog_recorderOnStop, h]
    exact ⟨_, rfl, by simp⟩
  · intro db2 lg
    simp [getLog, saveLog, lookupLog_putLogEntry]

/-- Witness for C8 at concrete inputs: starting from the empty store on
2024-05-01, a creating session followed by a session transcribing `segA` and
`segB` reads back exactly those two segments tagged with the session audio
id, in order. -/
theorem recorder_append_two_segments_witness :
    ∃ l, getLog (recorderOnStop (recorderOnStop emptyDB "x1" [] 1 "2024-05-01" [] 0)
          "x2" [] 2 "2024-05-01" [segA, segB] 30) "2024-05-01" = some l
      ∧ l.transcripts = [{ segA with audioId := some "x2" }, { segB with audioId := some "x2" }] :=
  (recorder_append_two_segments emptyDB "2024-05-01" "x1" "x2" [] [] 1 2 0 30 segA segB rfl).1

/-! ## Reachable audio states of the application -/


/-- An entry of a store after a put is the put pair or an old entry. -/
theorem mem_putEntry {a : AudioStore} {id : String} {r : AudioRecord} {p : String × AudioRecord}
    (hp : p ∈ putEntry a id r) : p = (id, r) ∨ p ∈ a := by
  induction a with
  | nil => simpa [putEntry] using hp
  | cons q rest ih =>
    simp only [putEntry] at hp
    by_cases hq : q.1 = id
    · rw [if_pos (beq_iff_eq.mpr hq)] at hp
      rcases List.mem_cons.mp hp with rfl | hp2
      · exact Or.inl rfl
      · exact Or.inr (List.mem_cons_of_mem _ hp2)
    · rw [if_neg (by simp [hq])] at hp
      rcases List.mem_cons.mp hp with rfl | hp2
      · exact Or.inr (List.mem_cons_self _ _)
      · rcases ih hp2 with h | h
        · exact Or.inl h
        · exact Or.inr (List.mem_cons_of_mem _ h)

/-- Deletes only remove entries. -/
theorem mem_foldl_delete {ids : List String} {a : AudioStore} {p : String × AudioRecord}
    (hp : p ∈ ids.foldl deleteAudioEntry a) : p ∈ a := by
  induction ids generalizing a with
  | nil => exact hp
  | cons i ids ih => exact List.mem_of_mem_filter (ih hp)

/-- Every application operation except the compaction sweep preserves the
all-uncompressed audio invariant: the recording flow puts its record with the
compress flag false, log writes leave the audio store untouched, and deletes
only remove entries. -/
theorem audioAllUncompressed_applyOp {db : DB} {op : AppOp} (hop : op.isSweep = false)
    (h : AudioAllUncompressed db.audio) : AudioAllUncompressed (applyOp db op).audio := by
  cases op with
  | record aid blob now today segs secs =>
    intro p hp
    have he : (applyOp db (.record aid blob now today segs secs)).audio
        = putEntry db.audio aid ⟨blob, false, now⟩ := rfl
    rw [he] at hp
    rcases mem_putEntry hp with rfl | hp2
    · rfl
    · exact h p hp2
  | putLogOp l => exact h
  | deleteDay d ids => exact fun p hp => h p (mem_foldl_delete hp)
  | wipe => intro p hp; cases hp
  | sweep dv c => simp [AppOp.isSweep] at hop

/-- A sweep-free operation sequence preserves the all-uncompressed audio
invariant. -/
theorem audioAllUncompressed_foldl (ops : List AppOp)
    (hops : ∀ op ∈ ops, op.isSweep = false) :
    ∀ db : DB, AudioAllUncompressed db.audio →
      AudioAllUncompressed (ops.foldl applyOp db).audio := by
  induction ops with
  | nil => exact fun db h => h
  | cons op ops ih =>
    intro db h
    exact ih (fun o ho => hops o (List.mem_cons_of_mem _ ho)) _
      (audioAllUncompressed_applyOp (hops op (List.mem_cons_self _ _)) h)

/-- Claim C10: the recording flow stores its audio record uncompressed with
`compressed = false` (the saveAudio compress flag defaults to false and the
recording path never sets it), so in every store state reached by a sequence
of application operations that does not run the retention compactor, every
stored audio record has `compressed = false`; only the compactor can
introduce `compressed = true`. -/
theorem recording_audio_uncompressed :
    (∀ (db : DB) (id : String) (b : List Nat) (now : Nat),
        lookupAudio (saveAudio db id b false now).audio id = some ⟨b, false, now⟩)
    ∧ (∀ ops : List AppOp, (∀ op ∈ ops, op.isSweep = false) →
        ∀ (id : String) (r : AudioRecord),
          lookupAudio (runOps ops).audio id = some r → r.compressed = false) := by
  constructor
  · intro db id b now
    simp [saveAudio, lookupAudio_putEntry]
  · intro ops hops id r hr
    have hall : AudioAllUncompressed (runOps ops).audio :=
      audioAllUncompressed_foldl ops hops emptyDB (fun p hp => by cases hp)
    have hmem : ∃ p ∈ (runOps ops).audio, p.2 = r := by
      unfold lookupAudio at hr
      cases hfind : List.find? (fun p => p.1 == id) (runOps ops).audio with
      | none => rw [hfind] at hr; cases hr
      | some p =>
        rw [hfind] at hr
        exact ⟨p, List.mem_of_find?_eq_some hfind, by simpa using hr⟩
    obtain ⟨p, hp, hpr⟩ := hmem
    rw [← hpr]
    exact hall p hp

/-- Witness for C10 at a concrete input: after one recording session, the
stored record under its audio id has `compressed = false`. -/
theorem recording_audio_uncompressed_witness :
    (⟨[1, 2], false, 3⟩ : AudioRecord).compressed = false :=
  recording_audio_uncompressed.2 [AppOp.record "aid1" [1, 2] 3 "2024-05-01" [] 0]
    (by intro op hop; simp only [List.mem_singleton] at hop; subst hop; rfl)
    "aid1" ⟨[1, 2], false, 3⟩ rfl

/-! ## Compaction sweep: segment marking and the untouched audio store -/

/-- The segment loop marks every qualifying segment and keeps the rest. -/
theorem sweepSegments_segs : ∀ segs : List ConversationSegment,
    (sweepSegments segs).1 = segs.map markSeg
  | [] => rfl
  | s :: rest => by
    by_cases hq : segQualifies s
    · simp only [sweepSegments, hq, if_true, List.map_cons]
      rw [sweepSegments_segs rest]
      simp [markSeg, hq]
    · simp only [sweepSegments, hq, if_false, List.map_cons]
      rw [sweepSegments_segs rest]
      simp [markSeg, hq]

/-- The log-updated flag of the segment loop is exactly whether some segment
qualifies. -/
theorem sweepSegments_updated : ∀ segs : List ConversationSegment,
    (sweepSegments segs).2 = segs.any segQualifies
  | [] => rfl
  | s :: rest => by
    by_cases hq : segQualifies s
    · simp [sweepSegments, hq]
    · simp only [sweepSegments, hq, if_false, List.any_cons]
      rw [sweepSegments_updated rest]
      simp [hq]

/-- The per-log sweep step never touches the audio store: its nested audio
puts are issued after the transaction has auto-committed and are lost. -/
theorem sweepLog_audio (dv : String → Int) (c : Int) (st : DB) (L : DailyLog) :
    (sweepLog dv c st L).audio = st.audio := by
  rw [sweepLog]
  by_cases hlt : dv L.date < c
  · rw [if_pos hlt]
    by_cases hupd : (sweepSegments L.transcripts).2 <;> simp [hupd]
  · rw [if_neg hlt]

/-- A whole sweep run never modifies any stored audio record. -/
theorem sweep_audio_unchanged (dv : String → Int) (c : Int) (db : DB) :
    (autoCleanupAndCompress dv c db).audio = db.audio := by
  suffices h : ∀ (todo : List DailyLog) (st : DB),
      ((todo.foldl (sweepLog dv c) st)).audio = st.audio from h db.logs db
  intro todo
  induction todo with
  | nil => intro st; rfl
  | cons L rest ih =>
    intro st
    rw [List.foldl_cons, ih, sweepLog_audio]

/-! ## Compaction sweep: logs-side characterization -/

/-- A log put whose date matches the single entry of that date replaces it in
place. -/
theorem putLogEntry_append_replace (l1 : LogStore) (L M : DailyLog) (l2 : LogStore)
    (hdate : M.date = L.date) (h1 : ∀ K ∈ l1, K.date ≠ M.date) :
    putLogEntry (l1 ++ L :: l2) M = l1 ++ M :: l2 := by
  induction l1 with
  | nil =>
    simp only [List.nil_append, putLogEntry]
    rw [if_pos (beq_iff_eq.mpr hdate.symm)]
  | cons K l1 ih =>
    simp only [List.cons_append, putLogEntry]
    rw [if_neg (by simpa using h1 K (List.mem_cons_self _ _))]
    simp only [List.append_eq]
    rw [ih (fun K2 h => h1 K2 (List.mem_cons_of_mem _ h))]

/-- Marking changes nothing on a list with no qualifying segment. -/
theorem map_markSeg_self (segs : List ConversationSegment)
    (h : segs.any segQualifies = false) : segs.map markSeg = segs := by
  induction segs with
  | nil => rfl
  | cons s rest ih =>
    simp only [List.any_cons, Bool.or_eq_false_iff] at h
    simp [markSeg, h.1, ih h.2]

/-- Marking a log with no qualifying segment changes nothing. -/
theorem markLog_eq_self {L : DailyLog} (h : L.transcripts.any segQualifies = false) :
    markLog L = L := by
  rw [markLog, map_markSeg_self L.transcripts h]

/-- Marking keeps a log stored under its date. -/
theorem sweep_transform_date (dv : String → Int) (c : Int) (D : DailyLog) :
    ((if dv D.date < c then markLog D else D)).date = D.date := by
  by_cases hlt : dv D.date < c <;> simp [hlt, markLog]

/-- The logs store after folding the sweep over a snapshot with pairwise
distinct dates: each processed entry older than the horizon is replaced in
place by its marked version, the others stay. -/
theorem sweep_logs_aux (dv : String → Int) (c : Int) :
    ∀ (todo done : List DailyLog) (st : DB),
      ((done ++ todo).map DailyLog.date).Nodup →
      st.logs = done.map (fun K => if dv K.date < c then markLog K else K) ++ todo →
      (todo.foldl (sweepLog dv c) st).logs
        = (done ++ todo).map (fun K => if dv K.date < c then markLog K else K)
  | [], done, st, _, hst => by simpa using hst
  | L :: todo', done, st, hnd, hst => by
    have hstep : (sweepLog dv c st L).logs
        = (done ++ [L]).map (fun K => if dv K.date < c then markLog K else K) ++ todo' := by
      rw [sweepLog]
      by_cases hlt : dv L.date < c
      · rw [if_pos hlt]
        cases hupd : (sweepSegments L.transcripts).2 with
        | false =>
          have hany : L.transcripts.any segQualifies = false := by
            rw [← sweepSegments_updated L.transcripts]
            exact hupd
          simp only [hupd, Bool.false_eq_true, if_false]
          rw [hst]
          simp [if_pos hlt, markLog_eq_self hany]
        | true =>
          simp only [hupd, if_true]
          rw [sweepSegments_segs L.transcripts]
          have hmem : L.date ∉ done.map DailyLog.date := by
            rw [List.map_append] at hnd
            have hd := (List.nodup_append.mp hnd).2.2
            intro hL
            exact hd hL (by simp)
          have hrep : ∀ K ∈ done.map (fun K => if dv K.date < c then markLog K else K),
              K.date ≠ (markLog L).date := by
            intro K hK
            obtain ⟨D, hD, rfl⟩ := List.mem_map.mp hK
            rw [sweep_transform_date]
            intro hdd
            exact hmem (hdd ▸ List.mem_map_of_mem DailyLog.date hD)
          rw [hst]
          rw [show ({ L with transcripts := L.transcripts.map markSeg }) = markLog L from rfl]
          rw [putLogEntry_append_replace _ L (markLog L) todo' rfl hrep]
          simp [if_pos hlt]
      · rw [if_neg hlt]
        rw [hst]
        simp [if_neg hlt]
    rw [List.foldl_cons]
    have hrec := sweep_logs_aux dv c todo' (done ++ [L]) (sweepLog dv c st L)
      (by simpa [List.append_assoc] using hnd) hstep
    simpa [List.append_assoc] using hrec

/-- The logs store after one whole sweep with pairwise distinct dates. -/
theorem sweep_logs_eq (dv : String → Int) (c : Int) (db : DB)
    (hnd : (db.logs.map DailyLog.date).Nodup) :
    (autoCleanupAndCompress dv c db).logs
      = db.logs.map (fun K => if dv K.date < c then markLog K else K) :=
  sweep_logs_aux dv c db.logs [] db (by simpa using hnd) (by simp)

/-- Claim C3 (code bug, at the failing input): on `dbDel` - one log strictly
older than the horizon whose only segment references the uncompressed record
"a1" - the sweep marks the segment as compression-accounted-for and rewrites
the log, yet the audio store is identical afterwards and record "a1" still
holds its raw bytes with `compressed = false`.  The claim (and spec 4.3,
plainly the intent of a function named autoCleanupAndCompress) requires "a1"
to be rewritten compressed; the source loses that write because the
audioStore.put of db.ts:94-100 runs after `await compressBlob` inside the
onsuccess handler, when the single transaction has auto-committed - the
latent race spec 9 flags. -/
theorem autoCleanup_marks_but_never_compresses :
    (autoCleanupAndCompress dateNum 11 dbDel).logs = [markLog logDel]
    ∧ (markLog logDel).transcripts = [{ segDel with isCompressed := true }]
    ∧ (autoCleanupAndCompress dateNum 11 dbDel).audio = dbDel.audio
    ∧ lookupAudio (autoCleanupAndCompress dateNum 11 dbDel).audio "a1"
        = some ⟨[1, 2], false, 7⟩ :=
  ⟨rfl, rfl, rfl, rfl⟩

/-! ## Compaction sweep: idempotence -/

/-- The segment loop is the identity on a list with no qualifying segment. -/
theorem sweepSegments_inactive (segs : List ConversationSegment)
    (h : ∀ s ∈ segs, segQualifies s = false) :
    sweepSegments segs = (segs, false) := by
  induction segs with
  | nil => rfl
  | cons s rest ih =>
    have hs := h s (List.mem_cons_self _ _)
    simp only [sweepSegments, hs, Bool.false_eq_true, if_false]
    rw [ih (fun u hu => h u (List.mem_cons_of_mem _ hu))]

/-- The per-log sweep step is the identity on an inert log. -/
theorem sweepLog_inert (dv : String → Int) (c : Int) (st : DB) (L : DailyLog)
    (h : InertLog dv c L) : sweepLog dv c st L = st := by
  rw [sweepLog]
  cases h with
  | inl hlt => rw [if_neg hlt]
  | inr hsegs =>
    by_cases hlt : dv L.date < c
    · rw [if_pos hlt, sweepSegments_inactive L.transcripts hsegs]
      simp
    · rw [if_neg hlt]

/-- Folding the sweep over inert logs changes nothing. -/
theorem foldl_sweepLog_inert (dv : String → Int) (c : Int) :
    ∀ (l : List DailyLog) (st : DB), (∀ L ∈ l, InertLog dv c L) →
      l.foldl (sweepLog dv c) st = st
  | [], _, _ => rfl
  | L :: rest, st, h => by
    rw [List.foldl_cons, sweepLog_inert dv c st L (h L (List.mem_cons_self _ _))]
    exact foldl_sweepLog_inert dv c rest st (fun K hK => h K (List.mem_cons_of_mem _ hK))

/-- No marked segment qualifies again. -/
theorem markSeg_inactive (s : ConversationSegment) : segQualifies (markSeg s) = false := by
  by_cases hq : segQualifies s
  · rw [markSeg, if_pos hq, segQualifies]
    simp
  · rw [markSeg, if_neg hq]
    exact Bool.eq_false_iff.mpr hq

/-- Every log left by a completed sweep is inert. -/
theorem sweep_output_inert (dv : String → Int) (c : Int) (db : DB)
    (hnd : (db.logs.map DailyLog.date).Nodup) :
    ∀ L ∈ (autoCleanupAndCompress dv c db).logs, InertLog dv c L := by
  intro L hL
  rw [sweep_logs_eq dv c db hnd] at hL
  obtain ⟨K, hK, rfl⟩ := List.mem_map.mp hL
  by_cases hlt : dv K.date < c
  · rw [if_pos hlt]
    right
    intro s hs
    simp only [markLog] at hs
    obtain ⟨u, _, rfl⟩ := List.mem_map.mp hs
    exact markSeg_inactive u
  · rw [if_neg hlt]
    exact Or.inl hlt

/-- Claim C6: compacting an AudioRecord whose compressed flag is already true
is a no-op on its stored bytes and flag - the rewrite attempt is guarded by
the `!result.compressed` check and, like every nested audio put of the sweep,
lost to the auto-committed transaction, so the next read returns the record
unchanged - and the sweep is idempotent: a second run over the store left by
a completed first run (same horizon, pairwise distinct dates) returns the
identical store, changing no stored bytes and no flags. -/
theorem autoCleanup_idempotent (dv : String → Int) (cutoff : Int) (db : DB)
    (hnd : (db.logs.map DailyLog.date).Nodup) :
    (∀ (aid : String) (r : AudioRecord),
        lookupAudio db.audio aid = some r → r.compressed = true →
        lookupAudio (autoCleanupAndCompress dv cutoff db).audio aid = some r)
    ∧ autoCleanupAndCompress dv cutoff (autoCleanupAndCompress dv cutoff db)
        = autoCleanupAndCompress dv cutoff db := by
  constructor
  · intro aid r h _
    rw [sweep_audio_unchanged]
    exact h
  · exact foldl_sweepLog_inert dv cutoff (autoCleanupAndCompress dv cutoff db).logs
      (autoCleanupAndCompress dv cutoff db) (sweep_output_inert dv cutoff db hnd)

/-- Witness for C6 at concrete inputs: on `dbC6` the already-compressed
record "c1" reads back unchanged after the sweep, and a second sweep over
the store left by the first run equals the first result. -/
theorem autoCleanup_idempotent_witness :
    lookupAudio (autoCleanupAndCompress dateNum 11 dbC6).audio "c1"
        = some ⟨compressBlob [3], true, 2⟩
    ∧ autoCleanupAndCompress dateNum 11 (autoCleanupAndCompress dateNum 11 dbC6)
        = autoCleanupAndCompress dateNum 11 dbC6 :=
  ⟨(autoCleanup_idempotent dateNum 11 dbC6 (by decide)).1 "c1"
      ⟨compressBlob [3], true, 2⟩ rfl rfl,
   (autoCleanup_idempotent dateNum 11 dbC6 (by decide)).2⟩

end DayTrack
